import Mathlib

/-!
Shallow embedding of `src/extensions/COMMANDS/GetCommand.py` (the `get`
command of the redfish utility).  Strings are modelled as `List Char`
(Python `str`), dictionaries as association lists with Python `dict`
operation semantics (lookup of the first binding, in-place update,
deletion of the present binding), and the external collaborator
(`self.rdmc.app`) as a record of pure functions.  Exceptions become
`Except` values.
-/

namespace GetCmd

/-- Python strings, as lists of characters. -/
abbrev Str := List Char

/-- `str.lower()` (ASCII case folding, which is what the source relies on). -/
def lowerStr (s : Str) : Str := s.map Char.toLower

/-- The single-quote character. -/
def squote : Char := Char.ofNat 39

/-- The double-quote character. -/
def dquote : Char := Char.ofNat 34

/-- The dot character used as the selector path separator. -/
def dotChar : Char := Char.ofNat 46

/-- The equals sign that separates filter attribute from value. -/
def eqChar : Char := Char.ofNat 61

/-- Whitespace characters removed by Python `str.strip()`. -/
def isPySpace (c : Char) : Bool :=
  c = Char.ofNat 32 ∨ c = Char.ofNat 9 ∨ c = Char.ofNat 10 ∨
  c = Char.ofNat 13 ∨ c = Char.ofNat 11 ∨ c = Char.ofNat 12

/-- Python `str.strip()`: drop whitespace from both ends. -/
def pyStrip (s : Str) : Str :=
  ((s.dropWhile isPySpace).reverse.dropWhile isPySpace).reverse

/-- Lines 100-103 of `run`: if the filter string starts and ends with the
same character and that character is a single or double quote, drop the
first and last character (`options.filter[1:-1]`). -/
def stripQuotes (s : Str) : Str :=
  match s with
  | [] => []
  | c :: rest =>
      if (c :: rest).getLast? = some c ∧ (c = squote ∨ c = dquote) then
        rest.dropLast
      else c :: rest

/-- Python `s.split("=")`: split on every equals sign (no limit). -/
def splitEq : Str → List Str
  | [] => [[]]
  | c :: rest =>
      if c = eqChar then [] :: splitEq rest
      else
        match splitEq rest with
        | [] => [[c]]
        | h :: t => (c :: h) :: t

/-- Lines 100-106 of `run`: strip one layer of matching quotes, split on
`=`, succeed only when unpacking into exactly two parts succeeds, and
strip whitespace from each part. -/
def parseFilter (s : Str) : Option (Str × Str) :=
  match splitEq (stripQuotes s) with
  | [a, b] => some (pyStrip a, pyStrip b)
  | _ => none

/-- The error kinds raised by the embedded code. -/
inductive GetError where
  /-- `InvalidCommandLineError`, with its message. -/
  | invalidCommandLine : Str → GetError
  /-- `NoContentsFoundForOperationError`, with its message. -/
  | noContents : Str → GetError
  /-- Python `TypeError` (dict.update applied to a non-mapping). -/
  | typeError : GetError
  /-- Python `IndexError` (`contents[0]` on an empty list). -/
  | indexError : GetError
  /-- An `EmptyRaiseForEAFP` raised by the retry call, which nothing
  catches. -/
  | uncaughtEmptyRaise : GetError
deriving DecidableEq, Repr

/-- The message of the invalid-filter error (lines 109-111). -/
def invalidFilterMsg : Str :=
  "Invalid filter parameter format [filter_attribute]=[filter_value]".data

/-- The `[filter_attribute]=[filter_value]` pattern named by the message. -/
def filterPatternStr : Str := "[filter_attribute]=[filter_value]".data

/-- Lines 97-111 of `run`: `filtr` stays `(None, None)` when
`options.filter` is falsy; otherwise parse, raising
`InvalidCommandLineError` when unpacking fails. -/
def runParseFilter (filter : Option Str) : Except GetError (Option (Str × Str)) :=
  match filter with
  | none => Except.ok none
  | some f =>
      if f = [] then Except.ok none
      else
        match parseFilter f with
        | some p => Except.ok (some p)
        | none => Except.error (GetError.invalidCommandLine invalidFilterMsg)

/-- Property values.  A value is either an opaque primitive or a nested
mapping (a Python dict), which is all the source inspects. -/
inductive Value where
  | prim : Nat → Value
  | obj : List (Str × Value) → Value

instance : Inhabited Value := ⟨Value.prim 0⟩

/-- A resource instance: a Python dict from property names to values. -/
abbrev Dict := List (Str × Value)

/-- The keys of a dict, in order. -/
def dictKeys (d : Dict) : List Str := d.map Prod.fst

/-- Python `d[k]` / `k in d`: the value bound to `k`, if any. -/
def dictGet? : Dict → Str → Option Value
  | [], _ => none
  | (k2, v) :: rest, k => if k2 = k then some v else dictGet? rest k

/-- Python `d[k] = v`: replace the binding if the key is present, else
append it. -/
def dictSet : Dict → Str → Value → Dict
  | [], k, v => [(k, v)]
  | (k2, v2) :: rest, k, v =>
      if k2 = k then (k2, v) :: rest else (k2, v2) :: dictSet rest k v

/-- Python `d.update(upd)`: set every binding of `upd` in order. -/
def dictUpdate (d : Dict) (upd : Dict) : Dict :=
  upd.foldl (fun acc kv => dictSet acc kv.1 kv.2) d

/-- Python `del d[k]`: remove the binding of `k` (the first one in this
model; a real dict has at most one). -/
def dictDel : Dict → Str → Dict
  | [], _ => []
  | (k2, v) :: rest, k => if k2 = k then rest else (k2, v) :: dictDel rest k

/-- Python string comparison used by `sorted`: lexicographic on code
points. -/
def keyLe : Str → Str → Bool
  | [], _ => true
  | _ :: _, [] => false
  | x :: xs, y :: ys => if x = y then keyLe xs ys else decide (x < y)

/-- The sort relation on dict items: compare the keys. -/
def pairLe (p q : Str × Value) : Prop := keyLe p.1 q.1 = true

instance : DecidableRel pairLe := fun p q => by
  unfold pairLe; infer_instance

/-- Line 190: `OrderedDict(sorted(list(content.items()), key=lambda x: x[0]))`. -/
def sortDict (d : Dict) : Dict := List.insertionSort pairLe d

/-- The `"Attributes"` key. -/
def attrsKey : Str := "Attributes".data

/-- The lowercase `"bios."` marker tested against the selector. -/
def biosDotStr : Str := "bios.".data

/-- The lowercase `"attributes"` marker tested against each argument. -/
def attributesStr : Str := "attributes".data

/-- The `"Attributes/"` fragment prepended to BIOS arguments. -/
def attrsSlashStr : Str := "Attributes/".data

/-- The lowercase `"@odata"` metadata marker. -/
def odataStr : Str := "@odata".data

/-- Python substring containment `needle in hay`. -/
def strContains (needle : Str) : Str → Bool
  | [] => needle.isEmpty
  | c :: rest => List.isPrefixOf needle (c :: rest) || strContains needle rest

/-- Lines 159-160: append a `.` to a truthy selector that contains none. -/
def normalizeSelector (sel : Str) : Str :=
  if sel ≠ [] ∧ dotChar ∉ sel then sel ++ [dotChar] else sel

/-- Lines 161-171: under a selector whose lowercase form starts with
`bios.`, prefix `Attributes/` to every argument whose lowercase form
does not contain `attributes`. -/
def rewriteArgs (sel : Str) (args : List Str) : List Str :=
  args.map fun arg =>
    if List.isPrefixOf biosDotStr (lowerStr sel) &&
        ! strContains attributesStr (lowerStr arg) then
      attrsSlashStr ++ arg
    else arg

/-- Lines 184-189: when the lowercase selector contains `bios.` and the
mapping has an `Attributes` key, `content.update(content["Attributes"])`
followed by `del content["Attributes"]`; a non-mapping `Attributes`
value makes `update` raise `TypeError`. -/
def flattenBios (sel : Str) (c : Dict) : Except GetError Dict :=
  if strContains biosDotStr (lowerStr sel) then
    match dictGet? c attrsKey with
    | some (Value.obj d) => Except.ok (dictDel (dictUpdate c d) attrsKey)
    | some (Value.prim _) => Except.error GetError.typeError
    | none => Except.ok c
  else Except.ok c

/-- Lines 184-190 for one mapping: flatten `Attributes`, then sort by key. -/
def postProcessOne (sel : Str) (c : Dict) : Except GetError Dict :=
  match flattenBios sel c with
  | Except.ok c2 => Except.ok (sortDict c2)
  | Except.error e => Except.error e

/-- Lines 184-190: post-process every returned mapping in order. -/
def postProcess (sel : Str) : List Dict → Except GetError (List Dict)
  | [] => Except.ok []
  | c :: rest =>
      match postProcessOne sel c with
      | Except.error e => Except.error e
      | Except.ok c2 =>
          match postProcess sel rest with
          | Except.error e => Except.error e
          | Except.ok rest2 => Except.ok (c2 :: rest2)

/-- Lines 193-194: drop keys in `HARDCODEDLIST` (an exclusion set whose
elements live outside this file, passed as a parameter) and keys whose
lowercase form contains `@odata`. -/
def filterReserved (hard : List Str) (d : Dict) : Dict :=
  d.filter fun kv =>
    decide (kv.1 ∉ hard) && ! strContains odataStr (lowerStr kv.1)

/-- The outcome of one `app.getprops` call: either contents together
with the property names added to the `nocontent` sink, or the
recoverable `EmptyRaiseForEAFP` sentinel. -/
inductive PropsResult where
  | ok : List Dict → List Str → PropsResult
  | emptyRaise : PropsResult

/-- The external collaborator `self.rdmc.app`: `select` resolves a
filter to an opaque instance set, `getprops` takes the property list,
the `remread` flag and the optional instance restriction. -/
structure App where
  select : Str → Str × Str → Nat
  getprops : List Str → Bool → Option Nat → PropsResult

/-- Line 172-175: resolve instances only when the first filter component
is truthy. -/
def instancesOf (app : App) (sel : Str) (fv : Option (Str × Str)) : Option Nat :=
  match fv with
  | some (a, v) => if a ≠ [] then some (app.select sel (a, v)) else none
  | none => none

/-- A record of one `getprops` invocation: the property arguments, the
`remread` flag, and whether an instance restriction was passed. -/
structure GetpropsCall where
  props : List Str
  remread : Bool
  restricted : Bool
deriving DecidableEq, Repr

/-- The option fields `getworkerfunction` reads. -/
structure Options where
  json : Bool
  logout : Bool
  noreadonly : Bool
deriving DecidableEq, Repr

/-- The parameters of `getworkerfunction`. -/
structure WorkerIn where
  args : List Str
  options : Options
  readonly : Bool
  filtervals : Option (Str × Str)
  results : Bool
  uselist : Bool

/-- The shape of `contents` when it reaches the renderer: a single
mapping or a list of mappings. -/
inductive ContentsView where
  | one : Dict → ContentsView
  | many : List Dict → ContentsView

/-- What `getworkerfunction` did with the final contents: returned them
to the caller (`results` truthy), or handed them to the JSON or the
human-readable renderer. -/
inductive Outcome where
  | returned : ContentsView → Outcome
  | renderedJson : ContentsView → Outcome
  | renderedHuman : ContentsView → Outcome

/-- The mappings inside a view. -/
def dictsOfView : ContentsView → List Dict
  | ContentsView.one d => [d]
  | ContentsView.many l => l

/-- The mappings inside an outcome. -/
def dictsOfOutcome : Outcome → List Dict
  | Outcome.returned cv => dictsOfView cv
  | Outcome.renderedJson cv => dictsOfView cv
  | Outcome.renderedHuman cv => dictsOfView cv

/-- Python truthiness of `contents` at the render step. -/
def truthyView : ContentsView → Bool
  | ContentsView.one d => !d.isEmpty
  | ContentsView.many l => !l.isEmpty

/-- Python `", ".join(str(val) for val in nocontent)`. -/
def joinComma : List Str → Str
  | [] => []
  | [s] => s
  | s :: rest => s ++ ", ".data ++ joinComma rest

/-- The generic no-content message (lines 216-218). -/
def genericNoContentsMsg : Str :=
  "No get contents found for selected type.".data

/-- The per-entry no-content message prefix (lines 212-214). -/
def entryNoContentsMsg (a : Str) : Str :=
  "No get contents found for entry: ".data ++ a

/-- Lines 209-218: the message of the `NoContentsFoundForOperationError`
raised when contents are falsy.  `arg` is the local variable of the same
name, which stays `None` throughout `getworkerfunction` (line 155 is its
only assignment), so the entry branch is dead there. -/
def emptyMsg (nocontent : List Str) (arg : Option Str) : Str :=
  let strtoprint := joinComma nocontent
  match arg with
  | some a => if strtoprint = [] ∧ a ≠ [] then entryNoContentsMsg a else genericNoContentsMsg
  | none => genericNoContentsMsg

/-- Line 198: collapse a one-element list of mappings to the mapping. -/
def collapseSingleton : ContentsView → ContentsView
  | ContentsView.many [d] => ContentsView.one d
  | v => v

/-- Lines 200-218: pick the renderer, or raise
`NoContentsFoundForOperationError` when contents are falsy. -/
def renderStep (opts : Options) (nocontent : List Str) (cv : ContentsView) :
    Except GetError Outcome :=
  if opts.json && truthyView cv then Except.ok (Outcome.renderedJson cv)
  else if truthyView cv then Except.ok (Outcome.renderedHuman cv)
  else Except.error (GetError.noContents (emptyMsg nocontent none))

/-- Lines 191-194: with `uselist` still set, `contents[0]`
(`IndexError` on an empty list) followed by the reserved-key filter;
otherwise the list passes through. -/
def uselistStep (hard : List Str) (uselist : Bool) (contents2 : List Dict) :
    Except GetError ContentsView :=
  if uselist then
    match contents2 with
    | [] => Except.error GetError.indexError
    | c :: _ => Except.ok (ContentsView.one (filterReserved hard c))
  else Except.ok (ContentsView.many contents2)

/-- Lines 195-218: early return when `results` is truthy, else collapse
a singleton list and render. -/
def finishView (inp : WorkerIn) (nocontent : List Str) (cv : ContentsView) :
    Except GetError Outcome :=
  if inp.results then Except.ok (Outcome.returned cv)
  else renderStep inp.options nocontent (collapseSingleton cv)

/-- Lines 184-218 of `getworkerfunction`, after `contents` and
`nocontent` are known and `uselist` has (or has not) been demoted. -/
def finishWorker (hard : List Str) (sel : Str) (inp : WorkerIn)
    (contents : List Dict) (nocontent : List Str) (uselist : Bool) :
    Except GetError Outcome :=
  match postProcess sel contents with
  | Except.error e => Except.error e
  | Except.ok contents2 =>
      match uselistStep hard uselist contents2 with
      | Except.error e => Except.error e
      | Except.ok cv => finishView inp nocontent cv

/-- The observable result of `getworkerfunction`: the selector stored
back on the session object, the trace of `getprops` calls, and the
outcome or raised error. -/
structure WorkerOut where
  selector : Str
  calls : List GetpropsCall
  outcome : Except GetError Outcome

/-- Lines 126-220: `getworkerfunction`.  Normalize the (mutated)
selector, rewrite BIOS arguments, resolve the filter instances, call
`getprops` with the read-only flag and the restriction, demote `uselist`
when `readonly` is set, and on `EmptyRaiseForEAFP` retry once with the
defaults (no `remread`, no instances); then post-process and render. -/
def getworkerfunction (hard : List Str) (app : App) (sel0 : Str) (inp : WorkerIn) :
    WorkerOut :=
  match app.getprops (rewriteArgs (normalizeSelector sel0) inp.args) inp.readonly
      (instancesOf app (normalizeSelector sel0) inp.filtervals) with
  | PropsResult.ok contents nocontent =>
      ⟨normalizeSelector sel0,
       [⟨rewriteArgs (normalizeSelector sel0) inp.args, inp.readonly,
         (instancesOf app (normalizeSelector sel0) inp.filtervals).isSome⟩],
       finishWorker hard (normalizeSelector sel0) inp contents nocontent
         (if inp.readonly then false else inp.uselist)⟩
  | PropsResult.emptyRaise =>
      match app.getprops (rewriteArgs (normalizeSelector sel0) inp.args) false none with
      | PropsResult.ok contents nocontent =>
          ⟨normalizeSelector sel0,
           [⟨rewriteArgs (normalizeSelector sel0) inp.args, inp.readonly,
             (instancesOf app (normalizeSelector sel0) inp.filtervals).isSome⟩,
            ⟨rewriteArgs (normalizeSelector sel0) inp.args, false, false⟩],
           finishWorker hard (normalizeSelector sel0) inp contents nocontent inp.uselist⟩
      | PropsResult.emptyRaise =>
          ⟨normalizeSelector sel0,
           [⟨rewriteArgs (normalizeSelector sel0) inp.args, inp.readonly,
             (instancesOf app (normalizeSelector sel0) inp.filtervals).isSome⟩,
            ⟨rewriteArgs (normalizeSelector sel0) inp.args, false, false⟩],
           Except.error GetError.uncaughtEmptyRaise⟩

/-- The option fields `run` reads. -/
structure RunOptions where
  filter : Option Str
  json : Bool
  noreadonly : Bool
  logout : Bool

/-- `ReturnCodes.SUCCESS`. -/
def returnCodeSuccess : Nat := 0

/-- The observable result of `run`: the returned code or raised error,
the selector left on the session, and the `getprops` call trace. -/
structure RunOut where
  code : Except GetError Nat
  selector : Str
  calls : List GetpropsCall

/-- Lines 75-124: `run`.  Parse the filter, call `getworkerfunction`
with `uselist=True`, `results=None`, `readonly=options.noreadonly`, and
return `ReturnCodes.SUCCESS` unless an error was raised. -/
def run (hard : List Str) (app : App) (sel0 : Str) (args : List Str)
    (opts : RunOptions) : RunOut :=
  match runParseFilter opts.filter with
  | Except.error e => ⟨Except.error e, sel0, []⟩
  | Except.ok fv =>
      let w := getworkerfunction hard app sel0
        ⟨args, ⟨opts.json, opts.logout, opts.noreadonly⟩, opts.noreadonly, fv, false, true⟩
      match w.outcome with
      | Except.error e => ⟨Except.error e, w.selector, w.calls⟩
      | Except.ok _ => ⟨Except.ok returnCodeSuccess, w.selector, w.calls⟩

/-- A collaborator returning one instance with a single plain property. -/
def appOne : App :=
  ⟨fun _ _ => 0, fun _ _ _ => PropsResult.ok [[("A".data, Value.prim 1)]] []⟩

/-- A collaborator returning one instance containing a metadata key. -/
def appOdata : App :=
  ⟨fun _ _ => 0,
   fun _ _ _ => PropsResult.ok
     [[("B".data, Value.prim 2), ("@odata.id".data, Value.prim 9), ("A".data, Value.prim 1)]] []⟩

/-- A collaborator finding nothing and recording `NoSuchProp` as missing. -/
def appNoSuch : App :=
  ⟨fun _ _ => 0, fun _ _ _ => PropsResult.ok [] ["NoSuchProp".data]⟩

/-- A collaborator returning a BIOS instance whose `Attributes` mapping
contains a child key itself named `Attributes`. -/
def appNestedAttrs : App :=
  ⟨fun _ _ => 0,
   fun _ _ _ => PropsResult.ok [[(attrsKey, Value.obj [(attrsKey, Value.prim 7)])]] []⟩

/-- A collaborator that raises `EmptyRaiseForEAFP` whenever the
read-only exclusion or an instance restriction is passed, and yields one
instance otherwise. -/
def appRetry : App :=
  ⟨fun _ _ => 0,
   fun _ rr insts =>
     if rr || insts.isSome then PropsResult.emptyRaise
     else PropsResult.ok [[("A".data, Value.prim 1)]] []⟩

/-- A collaborator that raises `EmptyRaiseForEAFP` whenever the
read-only exclusion or an instance restriction is passed, and yields one
instance holding only a metadata key otherwise. -/
def appRetryOdata : App :=
  ⟨fun _ _ => 0,
   fun _ rr insts =>
     if rr || insts.isSome then PropsResult.emptyRaise
     else PropsResult.ok [[("@odata.id".data, Value.prim 9)]] []⟩

/-- A collaborator returning an empty instance list without raising. -/
def appEmpty : App :=
  ⟨fun _ _ => 0, fun _ _ _ => PropsResult.ok [] []⟩

/-- A plain `WorkerIn` with the flags `run` always passes
(`uselist=True`, `results=None`) and no filter or read-only exclusion. -/
def plainIn (args : List Str) : WorkerIn :=
  ⟨args, ⟨false, false, false⟩, false, none, false, true⟩

/-- Strict key order: `keyLe` and distinct. -/
def keyLt (a b : Str) : Prop := keyLe a b = true ∧ a ≠ b

/-- A mapping whose keys are in strictly ascending Python string order. -/
def strictSorted (d : Dict) : Prop := List.Pairwise keyLt (dictKeys d)

/-- A value is well formed when any mapping in it has distinct keys
(true of every real Python dict). -/
def wfVal : Value → Bool
  | Value.prim _ => true
  | Value.obj d => decide (dictKeys d).Nodup

/-- A mapping is well formed when its keys are distinct and its values
are well formed (true of every real Python dict). -/
def wfDict (c : Dict) : Bool :=
  decide (dictKeys c).Nodup && c.all fun kv => wfVal kv.2

/-- A collaborator is well formed when every instance mapping it returns
is well formed: `getprops` hands back real Python dicts. -/
def WellFormedApp (app : App) : Prop :=
  ∀ props rr insts contents noc,
    app.getprops props rr insts = PropsResult.ok contents noc →
    ∀ c ∈ contents, wfDict c = true

/-! ### Facts about `splitEq` and filter parsing -/

theorem splitEq_ne_nil (s : Str) : splitEq s ≠ [] := by
  induction s with
  | nil => simp [splitEq]
  | cons c rest ih =>
      simp only [splitEq]
      split
      · simp
      · split <;> simp

theorem splitEq_no_eq {b : Str} (h : eqChar ∉ b) : splitEq b = [b] := by
  induction b with
  | nil => rfl
  | cons c rest ih =>
      have h1 : ¬(c = eqChar) := fun hc => h (by simp [hc])
      have h2 : eqChar ∉ rest := fun hm => h (List.mem_cons_of_mem _ hm)
      simp [splitEq, h1, ih h2]

theorem splitEq_append (a b : Str) (h : eqChar ∉ a) :
    splitEq (a ++ eqChar :: b) = a :: splitEq b := by
  induction a with
  | nil => simp [splitEq]
  | cons c a2 ih =>
      have h1 : ¬(c = eqChar) := fun hc => h (by simp [hc])
      have h2 : eqChar ∉ a2 := fun hm => h (List.mem_cons_of_mem _ hm)
      simp [List.cons_append, splitEq, h1, ih h2]

theorem length_splitEq (s : Str) : (splitEq s).length = s.count eqChar + 1 := by
  induction s with
  | nil => simp [splitEq]
  | cons c rest ih =>
      simp only [splitEq]
      by_cases hc : c = eqChar
      · subst hc
        simp [List.count_cons, ih]
      · rw [if_neg hc]
        cases h : splitEq rest with
        | nil => exact absurd h (splitEq_ne_nil rest)
        | cons h2 t =>
            rw [h] at ih
            simp only [List.length_cons] at ih ⊢
            have hcc : ¬(eqChar = c) := fun hx => hc hx.symm
            simp [List.count_cons, hcc, ih]

theorem parseFilter_eq_some {s a b : Str} (hsq : stripQuotes s = a ++ eqChar :: b)
    (ha : eqChar ∉ a) (hb : eqChar ∉ b) :
    parseFilter s = some (pyStrip a, pyStrip b) := by
  unfold parseFilter
  rw [hsq, splitEq_append a b ha, splitEq_no_eq hb]

theorem parseFilter_eq_none {s : Str} (h : (stripQuotes s).count eqChar ≠ 1) :
    parseFilter s = none := by
  unfold parseFilter
  cases hsp : splitEq (stripQuotes s) with
  | nil => exact absurd hsp (splitEq_ne_nil _)
  | cons x t =>
      cases t with
      | nil => rfl
      | cons y t2 =>
          cases t2 with
          | nil =>
              exfalso
              have hl := length_splitEq (stripQuotes s)
              rw [hsp] at hl
              simp at hl
              omega
          | cons z t3 => rfl

/-- C1: a `--filter` string that (after one layer of matching quote
stripping) is an attribute and a value joined by exactly one `=` parses
to the whitespace-trimmed pair; any non-empty filter string whose
quote-stripped form does not contain exactly one `=` makes `run` raise
`InvalidCommandLineError` with the message naming the
`[filter_attribute]=[filter_value]` pattern. -/
theorem C1_filter_parsing :
    (∀ s a b : Str, stripQuotes s = a ++ eqChar :: b → eqChar ∉ a → eqChar ∉ b →
        s ≠ [] → runParseFilter (some s) = Except.ok (some (pyStrip a, pyStrip b))) ∧
    (∀ s : Str, s ≠ [] → (stripQuotes s).count eqChar ≠ 1 →
        ∀ (hard : List Str) (app : App) (sel0 : Str) (args : List Str) (opts : RunOptions),
          opts.filter = some s →
          (run hard app sel0 args opts).code
            = Except.error (GetError.invalidCommandLine invalidFilterMsg)) ∧
    strContains filterPatternStr invalidFilterMsg = true := by
  refine ⟨?_, ?_, by decide⟩
  · intro s a b hsq ha hb hs
    unfold runParseFilter
    dsimp only
    rw [if_neg hs, parseFilter_eq_some hsq ha hb]
  · intro s hs h1 hard app sel0 args opts hf
    unfold run runParseFilter
    rw [hf]
    dsimp only
    rw [if_neg hs, parseFilter_eq_none h1]

/-- Witness for C1 at concrete inputs: `Name = CPU Fan` parses to the
trimmed pair, and the `=`-less string `abc` makes `run` fail with the
invalid-filter error. -/
theorem C1_witness :
    runParseFilter (some "Name = CPU Fan".data)
      = Except.ok (some (pyStrip "Name ".data, pyStrip " CPU Fan".data)) ∧
    (run [] appOne "Thermal".data [] ⟨some "abc".data, false, false, false⟩).code
      = Except.error (GetError.invalidCommandLine invalidFilterMsg) :=
  ⟨C1_filter_parsing.1 "Name = CPU Fan".data "Name ".data " CPU Fan".data
      (by decide) (by decide) (by decide) (by decide),
   C1_filter_parsing.2.1 "abc".data (by decide) (by decide) [] appOne "Thermal".data []
      ⟨some "abc".data, false, false, false⟩ rfl⟩

/-! ### The selector mutation and the BIOS argument rewrite -/

theorem worker_selector (hard : List Str) (app : App) (sel0 : Str) (inp : WorkerIn) :
    (getworkerfunction hard app sel0 inp).selector = normalizeSelector sel0 := by
  unfold getworkerfunction
  cases app.getprops (rewriteArgs (normalizeSelector sel0) inp.args) inp.readonly
      (instancesOf app (normalizeSelector sel0) inp.filtervals) with
  | ok c n => rfl
  | emptyRaise =>
      cases app.getprops (rewriteArgs (normalizeSelector sel0) inp.args) false none with
      | ok c n => rfl
      | emptyRaise => rfl

theorem worker_calls_props (hard : List Str) (app : App) (sel0 : Str) (inp : WorkerIn) :
    ∀ call ∈ (getworkerfunction hard app sel0 inp).calls,
      call.props = rewriteArgs (normalizeSelector sel0) inp.args := by
  intro call hc
  unfold getworkerfunction at hc
  cases happ : app.getprops (rewriteArgs (normalizeSelector sel0) inp.args) inp.readonly
      (instancesOf app (normalizeSelector sel0) inp.filtervals) with
  | ok c n =>
      rw [happ] at hc
      simp only [List.mem_singleton] at hc
      subst hc
      rfl
  | emptyRaise =>
      rw [happ] at hc
      cases happ2 : app.getprops (rewriteArgs (normalizeSelector sel0) inp.args) false none with
      | ok c n =>
          rw [happ2] at hc
          simp only [List.mem_cons, List.mem_singleton, List.not_mem_nil, or_false] at hc
          rcases hc with h | h <;> (subst h; rfl)
      | emptyRaise =>
          rw [happ2] at hc
          simp only [List.mem_cons, List.mem_singleton, List.not_mem_nil, or_false] at hc
          rcases hc with h | h <;> (subst h; rfl)

/-- C8 counterexample: the selector `a.b` is active and does not end in
`.`, yet `getworkerfunction` leaves it unchanged (the source tests
`"." not in selector`, not a trailing separator). -/
theorem C8_counterexample :
    ("a.b".data).getLast? ≠ some dotChar ∧
    "a.b".data ≠ ([] : Str) ∧
    (getworkerfunction [] appOne "a.b".data (plainIn [])).selector = "a.b".data ∧
    "a.b".data ≠ "a.b".data ++ [dotChar] := by decide

/-- C8 (amended): an active selector that contains no `.` anywhere gets
a single `.` appended for retrieval; a selector already containing a `.`
is used unchanged. -/
theorem C8_amended_selector_dot (hard : List Str) (app : App) (sel0 : Str) (inp : WorkerIn) :
    (sel0 ≠ [] → dotChar ∉ sel0 →
      (getworkerfunction hard app sel0 inp).selector = sel0 ++ [dotChar]) ∧
    (dotChar ∈ sel0 →
      (getworkerfunction hard app sel0 inp).selector = sel0) := by
  constructor
  · intro h1 h2
    rw [worker_selector]
    unfold normalizeSelector
    rw [if_pos ⟨h1, h2⟩]
  · intro h
    rw [worker_selector]
    unfold normalizeSelector
    rw [if_neg (fun hx => hx.2 h)]

/-- Witness for C8 (amended): `Thermal` has no dot and comes back as
`Thermal.`. -/
theorem C8_witness :
    (getworkerfunction [] appOne "Thermal".data (plainIn [])).selector
      = "Thermal".data ++ [dotChar] :=
  (C8_amended_selector_dot [] appOne "Thermal".data (plainIn [])).1
    (by decide) (by decide)

/-- C9 counterexample: `getworkerfunction` mutates the session object's
selector: after a call with active selector `Thermal` the stored
selector is no longer `Thermal`. -/
theorem C9_counterexample :
    (getworkerfunction [] appOne "Thermal".data (plainIn [])).selector
      ≠ "Thermal".data := by decide

/-- C9 (amended): the selector stored on the session object after
`getworkerfunction` is unchanged exactly when it was empty or already
contained a `.`; in every case the only possible mutation is the
appending of one `.`. -/
theorem C9_amended_selector_frame (hard : List Str) (app : App) (sel0 : Str) (inp : WorkerIn) :
    ((getworkerfunction hard app sel0 inp).selector = sel0 ↔ sel0 = [] ∨ dotChar ∈ sel0) ∧
    ((getworkerfunction hard app sel0 inp).selector = sel0 ∨
      (getworkerfunction hard app sel0 inp).selector = sel0 ++ [dotChar]) := by
  rw [worker_selector]
  unfold normalizeSelector
  constructor
  · constructor
    · intro he
      by_cases hn : sel0 = []
      · exact Or.inl hn
      · right
        by_contra hd
        rw [if_pos ⟨hn, hd⟩] at he
        have hl := congrArg List.length he
        simp at hl
    · intro hor
      rw [if_neg (fun hx => (hor.elim hx.1 hx.2 : False))]
  · by_cases hx : sel0 ≠ [] ∧ dotChar ∉ sel0
    · rw [if_pos hx]
      exact Or.inr rfl
    · rw [if_neg hx]
      exact Or.inl rfl

/-- Witness for C9 (amended): a selector already containing a dot is
left untouched. -/
theorem C9_witness :
    (getworkerfunction [] appOne "Bios.".data (plainIn [])).selector = "Bios.".data :=
  ((C9_amended_selector_frame [] appOne "Bios.".data (plainIn [])).1).mpr
    (Or.inr (by decide))

/-- C3 counterexample: the selector `biosX` starts with the
case-insensitive prefix `bios` and the argument `foo` does not mention
`attributes`, yet the property list sent to retrieval is unchanged: the
source only rewrites when the normalized selector starts with `bios.`. -/
theorem C3_counterexample :
    List.isPrefixOf "bios".data (lowerStr "biosX".data) = true ∧
    strContains attributesStr (lowerStr "foo".data) = false ∧
    (getworkerfunction [] appOne "biosX".data (plainIn ["foo".data])).calls
      = [⟨["foo".data], false, false⟩] ∧
    ["foo".data] ≠ [attrsSlashStr ++ "foo".data] := by decide

/-- C3 (amended): when the dot-normalized selector starts with the
case-insensitive prefix `bios.`, every retrieval call receives each
argument not already containing `attributes` (case-insensitive)
rewritten to `Attributes/` + argument and every other argument
unchanged; when it does not, every retrieval call receives the
arguments unchanged. -/
theorem C3_amended_bios_rewrite (hard : List Str) (app : App) (sel0 : Str) (inp : WorkerIn) :
    ∀ call ∈ (getworkerfunction hard app sel0 inp).calls,
      (List.isPrefixOf biosDotStr (lowerStr (normalizeSelector sel0)) = true →
        call.props = inp.args.map fun arg =>
          if strContains attributesStr (lowerStr arg) then arg
          else attrsSlashStr ++ arg) ∧
      (List.isPrefixOf biosDotStr (lowerStr (normalizeSelector sel0)) = false →
        call.props = inp.args) := by
  intro call hc
  have hp := worker_calls_props hard app sel0 inp call hc
  constructor
  · intro hb
    rw [hp]
    unfold rewriteArgs
    rw [hb]
    apply List.map_congr_left
    intro a _
    cases hs : strContains attributesStr (lowerStr a) <;> simp [hs]
  · intro hb
    rw [hp]
    unfold rewriteArgs
    rw [hb]
    simp

/-- Witness for C3 (amended): under selector `Bios` the argument
`PowerProfile` is sent as `Attributes/PowerProfile`. -/
theorem C3_witness :
    (⟨["Attributes/PowerProfile".data], false, false⟩ : GetpropsCall).props
      = ["PowerProfile".data].map (fun arg =>
          if strContains attributesStr (lowerStr arg) then arg
          else attrsSlashStr ++ arg) :=
  (C3_amended_bios_rewrite [] appOne "Bios".data (plainIn ["PowerProfile".data])
      ⟨["Attributes/PowerProfile".data], false, false⟩ (by decide)).1 (by decide)

/-! ### Dict operation lemmas -/

theorem dictKeys_nil : dictKeys [] = [] := rfl

theorem dictKeys_cons (k : Str) (v : Value) (rest : Dict) :
    dictKeys ((k, v) :: rest) = k :: dictKeys rest := rfl

theorem dictGet?_cons (k2 k : Str) (v : Value) (rest : Dict) :
    dictGet? ((k2, v) :: rest) k = if k2 = k then some v else dictGet? rest k := rfl

theorem dictSet_cons (k2 k : Str) (v2 v : Value) (rest : Dict) :
    dictSet ((k2, v2) :: rest) k v
      = if k2 = k then (k2, v) :: rest else (k2, v2) :: dictSet rest k v := rfl

theorem dictDel_cons (k2 k : Str) (v : Value) (rest : Dict) :
    dictDel ((k2, v) :: rest) k
      = if k2 = k then rest else (k2, v) :: dictDel rest k := rfl

theorem dictGet?_eq_none_of_not_mem {d : Dict} {k : Str} (h : k ∉ dictKeys d) :
    dictGet? d k = none := by
  induction d with
  | nil => rfl
  | cons kv rest ih =>
      obtain ⟨k2, v⟩ := kv
      rw [dictKeys_cons] at h
      simp only [List.mem_cons, not_or] at h
      rw [dictGet?_cons, if_neg (fun he => h.1 he.symm)]
      exact ih h.2

theorem dictGet?_dictSet_self (d : Dict) (k : Str) (v : Value) :
    dictGet? (dictSet d k v) k = some v := by
  induction d with
  | nil => simp [dictSet, dictGet?]
  | cons kv rest ih =>
      obtain ⟨k2, v2⟩ := kv
      rw [dictSet_cons]
      by_cases he : k2 = k
      · rw [if_pos he, dictGet?_cons, if_pos he]
      · rw [if_neg he, dictGet?_cons, if_neg he]
        exact ih

theorem dictGet?_dictSet_ne (d : Dict) {k k2 : Str} (v : Value) (h : k2 ≠ k) :
    dictGet? (dictSet d k v) k2 = dictGet? d k2 := by
  induction d with
  | nil =>
      rw [show dictSet [] k v = [(k, v)] from rfl, dictGet?_cons,
        if_neg (fun he => h he.symm)]
  | cons kv rest ih =>
      obtain ⟨k3, v3⟩ := kv
      rw [dictSet_cons]
      by_cases he : k3 = k
      · rw [if_pos he, dictGet?_cons, dictGet?_cons,
          if_neg (fun hx => h (he ▸ hx).symm), if_neg (fun hx => h (he ▸ hx).symm)]
      · rw [if_neg he, dictGet?_cons, dictGet?_cons]
        by_cases he2 : k3 = k2
        · rw [if_pos he2, if_pos he2]
        · rw [if_neg he2, if_neg he2, ih]

theorem dictKeys_dictSet_mem {d : Dict} {k : Str} (hm : k ∈ dictKeys d) (v : Value) :
    dictKeys (dictSet d k v) = dictKeys d := by
  induction d with
  | nil => cases hm
  | cons kv rest ih =>
      obtain ⟨k2, v2⟩ := kv
      rw [dictSet_cons]
      by_cases he : k2 = k
      · rw [if_pos he, dictKeys_cons, dictKeys_cons]
      · rw [dictKeys_cons] at hm
        rcases List.mem_cons.mp hm with h1 | h1
        · exact absurd h1.symm he
        · rw [if_neg he, dictKeys_cons, dictKeys_cons, ih h1]

theorem dictKeys_dictSet_not_mem {d : Dict} {k : Str} (hm : k ∉ dictKeys d) (v : Value) :
    dictKeys (dictSet d k v) = dictKeys d ++ [k] := by
  induction d with
  | nil => rfl
  | cons kv rest ih =>
      obtain ⟨k2, v2⟩ := kv
      rw [dictKeys_cons] at hm
      simp only [List.mem_cons, not_or] at hm
      rw [dictSet_cons, if_neg (fun he => hm.1 he.symm), dictKeys_cons,
        dictKeys_cons, ih hm.2, List.cons_append]

theorem nodup_dictKeys_dictSet {d : Dict} (h : (dictKeys d).Nodup) (k : Str) (v : Value) :
    (dictKeys (dictSet d k v)).Nodup := by
  by_cases hm : k ∈ dictKeys d
  · rwa [dictKeys_dictSet_mem hm]
  · rw [dictKeys_dictSet_not_mem hm]
    simp [List.nodup_append, h, hm]

theorem dictUpdate_nil (d : Dict) : dictUpdate d [] = d := rfl

theorem dictUpdate_cons (d : Dict) (k : Str) (v : Value) (rest : Dict) :
    dictUpdate d ((k, v) :: rest) = dictUpdate (dictSet d k v) rest := rfl

theorem nodup_dictKeys_dictUpdate (upd : Dict) {d : Dict} (h : (dictKeys d).Nodup) :
    (dictKeys (dictUpdate d upd)).Nodup := by
  induction upd generalizing d with
  | nil => exact h
  | cons kv rest ih =>
      obtain ⟨k, v⟩ := kv
      rw [dictUpdate_cons]
      exact ih (nodup_dictKeys_dictSet h k v)

theorem dictGet?_dictUpdate_not_mem {upd : Dict} {k : Str} (h : k ∉ dictKeys upd)
    (d : Dict) : dictGet? (dictUpdate d upd) k = dictGet? d k := by
  induction upd generalizing d with
  | nil => rfl
  | cons kv rest ih =>
      obtain ⟨k2, v⟩ := kv
      rw [dictKeys_cons] at h
      simp only [List.mem_cons, not_or] at h
      rw [dictUpdate_cons, ih h.2, dictGet?_dictSet_ne d v h.1]

theorem dictGet?_dictUpdate_mem {upd : Dict} {k : Str} {v : Value}
    (hn : (dictKeys upd).Nodup) (h : dictGet? upd k = some v) (d : Dict) :
    dictGet? (dictUpdate d upd) k = some v := by
  induction upd generalizing d with
  | nil => exact absurd h (by simp [dictGet?])
  | cons kv rest ih =>
      obtain ⟨k2, v2⟩ := kv
      rw [dictKeys_cons, List.nodup_cons] at hn
      rw [dictGet?_cons] at h
      by_cases he : k2 = k
      · subst he
        rw [if_pos rfl] at h
        rw [dictUpdate_cons, dictGet?_dictUpdate_not_mem hn.1,
          dictGet?_dictSet_self]
        exact h
      · rw [if_neg he] at h
        rw [dictUpdate_cons]
        exact ih hn.2 h (dictSet d k2 v2)

theorem dictDel_sublist (d : Dict) (k : Str) : List.Sublist (dictDel d k) d := by
  induction d with
  | nil => exact List.Sublist.refl []
  | cons kv rest ih =>
      obtain ⟨k2, v⟩ := kv
      rw [dictDel_cons]
      by_cases he : k2 = k
      · rw [if_pos he]
        exact List.Sublist.cons _ (List.Sublist.refl rest)
      · rw [if_neg he]
        exact List.Sublist.cons₂ _ ih

theorem nodup_dictKeys_dictDel {d : Dict} (h : (dictKeys d).Nodup) (k : Str) :
    (dictKeys (dictDel d k)).Nodup :=
  h.sublist (List.Sublist.map Prod.fst (dictDel_sublist d k))

theorem dictGet?_dictDel_ne {k k2 : Str} (h : k2 ≠ k) (d : Dict) :
    dictGet? (dictDel d k) k2 = dictGet? d k2 := by
  induction d with
  | nil => rfl
  | cons kv rest ih =>
      obtain ⟨k3, v⟩ := kv
      rw [dictDel_cons]
      by_cases he : k3 = k
      · rw [if_pos he, dictGet?_cons, if_neg (fun hx => h ((he ▸ hx : k = k2)).symm)]
      · rw [if_neg he, dictGet?_cons, dictGet?_cons]
        by_cases he2 : k3 = k2
        · rw [if_pos he2, if_pos he2]
        · rw [if_neg he2, if_neg he2, ih]

theorem dictGet?_dictDel_self {d : Dict} (h : (dictKeys d).Nodup) (k : Str) :
    dictGet? (dictDel d k) k = none := by
  induction d with
  | nil => rfl
  | cons kv rest ih =>
      obtain ⟨k2, v⟩ := kv
      rw [dictKeys_cons, List.nodup_cons] at h
      rw [dictDel_cons]
      by_cases he : k2 = k
      · rw [if_pos he]
        exact dictGet?_eq_none_of_not_mem (he ▸ h.1)
      · rw [if_neg he, dictGet?_cons, if_neg he]
        exact ih h.2

/-- C4 counterexample: under a BIOS selector, a mapping whose
`Attributes` container itself holds a child key named `Attributes`
flattens to the empty mapping: the child key is not present at top level
afterwards, because `del content["Attributes"]` also removes the freshly
promoted child. -/
theorem C4_counterexample :
    dictGet? [(attrsKey, Value.obj [(attrsKey, Value.prim 7)])] attrsKey
      = some (Value.obj [(attrsKey, Value.prim 7)]) ∧
    flattenBios "Bios.".data [(attrsKey, Value.obj [(attrsKey, Value.prim 7)])]
      = Except.ok [] ∧
    dictGet? ([] : Dict) attrsKey = none :=
  ⟨rfl, rfl, rfl⟩

/-- C4 (amended): under a BIOS-targeting selector, flattening a mapping
whose `Attributes` value is a mapping removes the `Attributes` key and
promotes every child key other than `Attributes` itself to the top level
with its former value (a child literally named `Attributes` is dropped
together with the container). -/
theorem C4_amended_flatten (sel : Str) (c d : Dict)
    (hsel : strContains biosDotStr (lowerStr sel) = true)
    (hattr : dictGet? c attrsKey = some (Value.obj d))
    (hc : (dictKeys c).Nodup) (hd : (dictKeys d).Nodup) :
    ∃ res, flattenBios sel c = Except.ok res ∧
      dictGet? res attrsKey = none ∧
      ∀ k v, dictGet? d k = some v → k ≠ attrsKey → dictGet? res k = some v := by
  refine ⟨dictDel (dictUpdate c d) attrsKey, ?_, ?_, ?_⟩
  · simp [flattenBios, hsel, hattr]
  · exact dictGet?_dictDel_self (nodup_dictKeys_dictUpdate d hc) attrsKey
  · intro k v hkv hkne
    rw [dictGet?_dictDel_ne hkne]
    exact dictGet?_dictUpdate_mem hd hkv c

/-- Witness for C4 (amended) at a concrete BIOS instance. -/
theorem C4_witness :
    ∃ res,
      flattenBios "Bios.".data
          [("Z".data, Value.prim 3), (attrsKey, Value.obj [("P".data, Value.prim 7)])]
        = Except.ok res ∧
      dictGet? res attrsKey = none ∧
      ∀ k v, dictGet? [("P".data, Value.prim 7)] k = some v → k ≠ attrsKey →
        dictGet? res k = some v :=
  C4_amended_flatten "Bios.".data
    [("Z".data, Value.prim 3), (attrsKey, Value.obj [("P".data, Value.prim 7)])]
    [("P".data, Value.prim 7)] (by decide) rfl (by decide) (by decide)

/-! ### Key order and sorting -/

theorem keyLe_total (a b : Str) : keyLe a b = true ∨ keyLe b a = true := by
  induction a generalizing b with
  | nil => exact Or.inl rfl
  | cons x xs ih =>
      cases b with
      | nil => exact Or.inr rfl
      | cons y ys =>
          by_cases he : x = y
          · subst he
            simp only [keyLe, if_pos rfl]
            exact ih ys
          · have hyx : ¬(y = x) := fun hx => he hx.symm
            simp only [keyLe, if_neg he, if_neg hyx, decide_eq_true_eq]
            exact lt_or_gt_of_ne he

theorem keyLe_trans {a b c : Str} (h1 : keyLe a b = true) (h2 : keyLe b c = true) :
    keyLe a c = true := by
  induction a generalizing b c with
  | nil => rfl
  | cons x xs ih =>
      cases b with
      | nil => simp [keyLe] at h1
      | cons y ys =>
          cases c with
          | nil => simp [keyLe] at h2
          | cons z zs =>
              by_cases hxy : x = y
              · subst hxy
                simp only [keyLe, if_pos rfl] at h1
                by_cases hyz : x = z
                · subst hyz
                  simp only [keyLe, if_pos rfl] at h2 ⊢
                  exact ih h1 h2
                · simp only [keyLe, if_neg hyz] at h2 ⊢
                  exact h2
              · simp only [keyLe, if_neg hxy, decide_eq_true_eq] at h1
                by_cases hyz : y = z
                · subst hyz
                  simp only [keyLe, if_neg hxy, decide_eq_true_eq]
                  exact h1
                · simp only [keyLe, if_neg hyz, decide_eq_true_eq] at h2
                  have hxz : x < z := lt_trans h1 h2
                  simp only [keyLe, if_neg (ne_of_lt hxz), decide_eq_true_eq]
                  exact hxz

theorem sorted_sortDict (d : Dict) : List.Pairwise pairLe (sortDict d) := by
  haveI : IsTotal (Str × Value) pairLe := ⟨fun p q => keyLe_total p.1 q.1⟩
  haveI : IsTrans (Str × Value) pairLe := ⟨fun _ _ _ h1 h2 => keyLe_trans h1 h2⟩
  exact List.sorted_insertionSort pairLe d

theorem perm_sortDict (d : Dict) : List.Perm (sortDict d) d :=
  List.perm_insertionSort pairLe d

theorem strictSorted_sortDict {d : Dict} (h : (dictKeys d).Nodup) :
    strictSorted (sortDict d) := by
  have hkeys : List.Pairwise (fun a b : Str => keyLe a b = true) (dictKeys (sortDict d)) :=
    List.Pairwise.map Prod.fst (fun _ _ hxy => hxy) (sorted_sortDict d)
  have hnd : (dictKeys (sortDict d)).Nodup :=
    (List.Perm.nodup_iff (List.Perm.map Prod.fst (perm_sortDict d))).mpr h
  exact hkeys.and hnd

theorem nodup_dictKeys_sortDict {d : Dict} (h : (dictKeys d).Nodup) :
    (dictKeys (sortDict d)).Nodup :=
  (List.Perm.nodup_iff (List.Perm.map Prod.fst (perm_sortDict d))).mpr h

theorem strictSorted_filterReserved {d : Dict} (hard : List Str)
    (h : strictSorted d) : strictSorted (filterReserved hard d) :=
  List.Pairwise.sublist (List.Sublist.map Prod.fst (List.filter_sublist d)) h

/-! ### Post-processing and the worker outcome -/

theorem postProcessOne_ok {sel : Str} {c c2 : Dict}
    (h : postProcessOne sel c = Except.ok c2) :
    ∃ cf, flattenBios sel c = Except.ok cf ∧ c2 = sortDict cf := by
  unfold postProcessOne at h
  cases hf : flattenBios sel c with
  | ok cf =>
      rw [hf] at h
      injection h with h2
      exact ⟨cf, rfl, h2.symm⟩
  | error e =>
      rw [hf] at h
      simp at h

theorem postProcess_ok_mem {sel : Str} {contents contents2 : List Dict}
    (h : postProcess sel contents = Except.ok contents2) :
    ∀ c2 ∈ contents2, ∃ c ∈ contents, postProcessOne sel c = Except.ok c2 := by
  induction contents generalizing contents2 with
  | nil =>
      simp only [postProcess] at h
      injection h with h2
      subst h2
      intro c2 hc2
      cases hc2
  | cons c rest ih =>
      simp only [postProcess] at h
      cases hp : postProcessOne sel c with
      | error e => rw [hp] at h; simp at h
      | ok c2h =>
          rw [hp] at h
          cases hr : postProcess sel rest with
          | error e => rw [hr] at h; simp at h
          | ok rest2 =>
              rw [hr] at h
              injection h with h2
              subst h2
              intro c2 hc2
              rcases List.mem_cons.mp hc2 with he | hm
              · exact ⟨c, List.mem_cons_self c rest, he ▸ hp⟩
              · obtain ⟨c0, hc0, hpc0⟩ := ih hr c2 hm
                exact ⟨c0, List.mem_cons_of_mem c hc0, hpc0⟩

theorem nodup_flattenBios {sel : Str} {c c2 : Dict} (hc : (dictKeys c).Nodup)
    (h : flattenBios sel c = Except.ok c2) : (dictKeys c2).Nodup := by
  unfold flattenBios at h
  split at h
  · cases hg : dictGet? c attrsKey with
    | none =>
        rw [hg] at h
        injection h with h2
        subst h2
        exact hc
    | some v =>
        cases v with
        | prim n => rw [hg] at h; simp at h
        | obj d =>
            rw [hg] at h
            injection h with h2
            subst h2
            exact nodup_dictKeys_dictDel (nodup_dictKeys_dictUpdate d hc) attrsKey
  · injection h with h2
    subst h2
    exact hc

theorem wfDict_nodup {c : Dict} (hw : wfDict c = true) : (dictKeys c).Nodup := by
  unfold wfDict at hw
  simp only [Bool.and_eq_true, decide_eq_true_eq] at hw
  exact hw.1

theorem strictSorted_postProcessOne {sel : Str} {c c2 : Dict} (hw : wfDict c = true)
    (h : postProcessOne sel c = Except.ok c2) : strictSorted c2 := by
  obtain ⟨cf, hf, he⟩ := postProcessOne_ok h
  subst he
  exact strictSorted_sortDict (nodup_flattenBios (wfDict_nodup hw) hf)

theorem dictsOfView_collapseSingleton (cv : ContentsView) :
    dictsOfView (collapseSingleton cv) = dictsOfView cv := by
  cases cv with
  | one d => rfl
  | many l =>
      cases l with
      | nil => rfl
      | cons x t =>
          cases t with
          | nil => rfl
          | cons y t2 => rfl

theorem renderStep_ok {opts : Options} {noc : List Str} {cv : ContentsView}
    {o : Outcome} (h : renderStep opts noc cv = Except.ok o) :
    dictsOfOutcome o = dictsOfView cv := by
  unfold renderStep at h
  split at h
  · injection h with h2
    subst h2
    rfl
  · split at h
    · injection h with h2
      subst h2
      rfl
    · simp at h

theorem uselistStep_ok {hard : List Str} {uselist : Bool} {contents2 : List Dict}
    {cv : ContentsView} (h : uselistStep hard uselist contents2 = Except.ok cv) :
    ∀ d ∈ dictsOfView cv, ∃ c2 ∈ contents2, d = c2 ∨ d = filterReserved hard c2 := by
  unfold uselistStep at h
  split at h
  · split at h
    · simp at h
    · rename_i c rest
      injection h with h2
      subst h2
      intro d hd
      exact ⟨c, List.mem_cons_self c rest, Or.inr (List.mem_singleton.mp hd)⟩
  · injection h with h2
    subst h2
    intro d hd
    exact ⟨d, hd, Or.inl rfl⟩

theorem finishView_ok {inp : WorkerIn} {noc : List Str} {cv : ContentsView}
    {o : Outcome} (h : finishView inp noc cv = Except.ok o) :
    dictsOfOutcome o = dictsOfView cv := by
  unfold finishView at h
  split at h
  · injection h with h2
    subst h2
    rfl
  · rw [renderStep_ok h, dictsOfView_collapseSingleton]

theorem finishWorker_dicts {hard : List Str} {sel : Str} {inp : WorkerIn}
    {contents : List Dict} {nocontent : List Str} {uselist : Bool} {o : Outcome}
    (h : finishWorker hard sel inp contents nocontent uselist = Except.ok o) :
    ∃ contents2, postProcess sel contents = Except.ok contents2 ∧
      ∀ d ∈ dictsOfOutcome o, ∃ c2 ∈ contents2, d = c2 ∨ d = filterReserved hard c2 := by
  unfold finishWorker at h
  split at h
  · simp at h
  · rename_i contents2 hpp
    split at h
    · simp at h
    · rename_i cv hus
      refine ⟨contents2, hpp, ?_⟩
      rw [finishView_ok h]
      exact uselistStep_ok hus

/-- C6: for a well-formed collaborator (every returned instance is a
real Python dict with distinct keys), every mapping that
`getworkerfunction` returns or hands to the JSON or human renderer has
its keys in strictly ascending Python string order, whatever order
retrieval produced. -/
theorem C6_sorted_keys (hard : List Str) (app : App) (sel0 : Str) (inp : WorkerIn)
    (o : Outcome) (hw : WellFormedApp app)
    (h : (getworkerfunction hard app sel0 inp).outcome = Except.ok o) :
    ∀ d ∈ dictsOfOutcome o, strictSorted d := by
  have hfin : ∃ contents nocontent uselist,
      (∀ c ∈ contents, wfDict c = true) ∧
      finishWorker hard (normalizeSelector sel0) inp contents nocontent uselist
        = Except.ok o := by
    unfold getworkerfunction at h
    cases h1 : app.getprops (rewriteArgs (normalizeSelector sel0) inp.args) inp.readonly
        (instancesOf app (normalizeSelector sel0) inp.filtervals) with
    | ok contents noc =>
        rw [h1] at h
        exact ⟨contents, noc, _, hw _ _ _ _ _ h1, h⟩
    | emptyRaise =>
        rw [h1] at h
        cases h2 : app.getprops (rewriteArgs (normalizeSelector sel0) inp.args) false none with
        | ok contents noc =>
            rw [h2] at h
            exact ⟨contents, noc, _, hw _ _ _ _ _ h2, h⟩
        | emptyRaise => rw [h2] at h; simp at h
  obtain ⟨contents, nocontent, uselist, hwf, hfw⟩ := hfin
  obtain ⟨contents2, hpp, hmem⟩ := finishWorker_dicts hfw
  intro d hd
  obtain ⟨c2, hc2, hor⟩ := hmem d hd
  obtain ⟨c, hcmem, hone⟩ := postProcess_ok_mem hpp c2 hc2
  have hss : strictSorted c2 := strictSorted_postProcessOne (hwf c hcmem) hone
  cases hor with
  | inl he => exact he ▸ hss
  | inr he => exact he ▸ strictSorted_filterReserved hard hss

/-- Witness for C6: the out-of-order instance returned by `appOdata`
reaches the renderer with strictly sorted keys. -/
theorem C6_witness :
    strictSorted [("A".data, Value.prim 1), ("B".data, Value.prim 2)] :=
  C6_sorted_keys [] appOdata "Thermal".data (plainIn [])
    (Outcome.renderedHuman
      (ContentsView.one [("A".data, Value.prim 1), ("B".data, Value.prim 2)]))
    (by
      intro props rr insts contents noc hok
      injection hok with h1 h2
      subst h1
      decide)
    rfl
    [("A".data, Value.prim 1), ("B".data, Value.prim 2)] (List.Mem.head _)

/-! ### The empty-contents error message, list-mode filtering, the
retry path and the empty-list crash -/

/-- C2 (code behavior at the failing input): with `NoSuchProp` requested
and recorded as missing and retrieval returning nothing, the raised
`NoContentsFoundForOperationError` carries the generic selected-type
message: the comma-joined missing names are computed but never make it
into the message (`arg` is always `None` and the entry branch requires
the joined string to be empty). -/
theorem C2_code_behavior :
    (getworkerfunction [] appNoSuch "Thermal".data
        ⟨["NoSuchProp".data], ⟨false, false, true⟩, true, none, false, true⟩).outcome
      = Except.error (GetError.noContents genericNoContentsMsg) ∧
    strContains "NoSuchProp".data genericNoContentsMsg = false ∧
    joinComma ["NoSuchProp".data] = "NoSuchProp".data :=
  ⟨rfl, by decide, rfl⟩

/-- C5 counterexample: with single-instance list mode requested
(`uselist=True`) but the read-only exclusion also requested, the
`@odata.id` key reaches the renderer: line 181 demotes `uselist` when
`readonly` is set, so no reserved-key filtering happens. -/
theorem C5_counterexample :
    (getworkerfunction [] appOdata "Thermal".data
        ⟨[], ⟨false, false, true⟩, true, none, false, true⟩).outcome
      = Except.ok (Outcome.renderedHuman (ContentsView.one
          [("@odata.id".data, Value.prim 9), ("A".data, Value.prim 1),
           ("B".data, Value.prim 2)])) ∧
    strContains odataStr (lowerStr "@odata.id".data) = true :=
  ⟨rfl, by decide⟩

theorem finishWorker_uselist_filtered {hard : List Str} {sel : Str} {inp : WorkerIn}
    {contents : List Dict} {nocontent : List Str} {o : Outcome}
    (h : finishWorker hard sel inp contents nocontent true = Except.ok o) :
    ∀ d ∈ dictsOfOutcome o, ∀ kv ∈ d,
      kv.1 ∉ hard ∧ strContains odataStr (lowerStr kv.1) = false := by
  unfold finishWorker at h
  split at h
  · simp at h
  · rename_i contents2 hpp
    split at h
    · simp at h
    · rename_i cv hus
      unfold uselistStep at hus
      rw [if_pos rfl] at hus
      split at hus
      · simp at hus
      · rename_i c rest
        injection hus with h2
        subst h2
        rw [finishView_ok h]
        intro d hd kv hkv
        have hde := List.mem_singleton.mp hd
        subst hde
        unfold filterReserved at hkv
        have hb := (List.mem_filter.mp hkv).2
        simp only [Bool.and_eq_true, decide_eq_true_eq, Bool.not_eq_true'] at hb
        exact hb

/-- C5 (amended): when single-instance list mode is requested and the
read-only exclusion is not, every key of every mapping that reaches the
renderer (or is returned) is outside `HARDCODEDLIST` and free of the
case-insensitive `@odata` marker. -/
theorem C5_amended_list_filter (hard : List Str) (app : App) (sel0 : Str)
    (inp : WorkerIn) (o : Outcome) (huse : inp.uselist = true)
    (hro : inp.readonly = false)
    (h : (getworkerfunction hard app sel0 inp).outcome = Except.ok o) :
    ∀ d ∈ dictsOfOutcome o, ∀ kv ∈ d,
      kv.1 ∉ hard ∧ strContains odataStr (lowerStr kv.1) = false := by
  have hfin : ∃ contents nocontent,
      finishWorker hard (normalizeSelector sel0) inp contents nocontent true
        = Except.ok o := by
    unfold getworkerfunction at h
    cases h1 : app.getprops (rewriteArgs (normalizeSelector sel0) inp.args) inp.readonly
        (instancesOf app (normalizeSelector sel0) inp.filtervals) with
    | ok contents noc =>
        rw [h1] at h
        refine ⟨contents, noc, ?_⟩
        rw [hro, huse] at h
        simpa using h
    | emptyRaise =>
        rw [h1] at h
        cases h2 : app.getprops (rewriteArgs (normalizeSelector sel0) inp.args) false none with
        | ok contents noc =>
            rw [h2] at h
            refine ⟨contents, noc, ?_⟩
            rw [huse] at h
            exact h
        | emptyRaise => rw [h2] at h; simp at h
  obtain ⟨contents, nocontent, hfw⟩ := hfin
  exact finishWorker_uselist_filtered hfw

/-- Witness for C5 (amended): with `HARDCODEDLIST = ["B"]` the rendered
key `A` is outside the exclusion set and carries no metadata marker. -/
theorem C5_witness :
    ("A".data, Value.prim 1).1 ∉ ["B".data] ∧
    strContains odataStr (lowerStr ("A".data, Value.prim 1).1) = false :=
  C5_amended_list_filter ["B".data] appOdata "Thermal".data (plainIn [])
    (Outcome.renderedHuman (ContentsView.one [("A".data, Value.prim 1)]))
    rfl rfl rfl
    [("A".data, Value.prim 1)] (List.Mem.head _)
    ("A".data, Value.prim 1) (List.Mem.head _)

theorem worker_retry {hard : List Str} {app : App} {sel0 : Str} {inp : WorkerIn}
    {contents : List Dict} {noc : List Str}
    (h1 : app.getprops (rewriteArgs (normalizeSelector sel0) inp.args) inp.readonly
        (instancesOf app (normalizeSelector sel0) inp.filtervals)
        = PropsResult.emptyRaise)
    (h2 : app.getprops (rewriteArgs (normalizeSelector sel0) inp.args) false none
        = PropsResult.ok contents noc) :
    getworkerfunction hard app sel0 inp
      = ⟨normalizeSelector sel0,
         [⟨rewriteArgs (normalizeSelector sel0) inp.args, inp.readonly,
           (instancesOf app (normalizeSelector sel0) inp.filtervals).isSome⟩,
          ⟨rewriteArgs (normalizeSelector sel0) inp.args, false, false⟩],
         finishWorker hard (normalizeSelector sel0) inp contents noc inp.uselist⟩ := by
  unfold getworkerfunction
  rw [h1, h2]

theorem finishWorker_uselist_success {hard : List Str} {sel : Str} {inp : WorkerIn}
    {nocontent : List Str} {contents : List Dict} {c : Dict} {rest : List Dict}
    (hres : inp.results = false)
    (h3 : postProcess sel contents = Except.ok (c :: rest))
    (h4 : filterReserved hard c ≠ []) :
    ∃ o, finishWorker hard sel inp contents nocontent true = Except.ok o := by
  have ht : truthyView (ContentsView.one (filterReserved hard c)) = true := by
    unfold truthyView
    cases hfc : filterReserved hard c with
    | nil => exact absurd hfc h4
    | cons a b => rfl
  unfold finishWorker
  rw [h3]
  dsimp only
  unfold uselistStep
  rw [if_pos rfl]
  dsimp only
  unfold finishView
  rw [hres]
  simp only [Bool.false_eq_true, if_false]
  unfold renderStep
  cases hjson : inp.options.json with
  | true => simp [hjson, ht, collapseSingleton]
  | false => simp [hjson, ht, collapseSingleton]

/-- C7 counterexample: the first call raises `EmptyRaiseForEAFP` and
the retry yields non-empty content, but that content holds only the
metadata key `@odata.id`: the retry path keeps `uselist`, the line-193
comprehension empties the collapsed mapping, and `run` raises the
generic `NoContentsFoundForOperationError` instead of returning the
success code — even though the retry was made exactly as documented. -/
theorem C7_counterexample :
    (run [] appRetryOdata "Thermal".data [] ⟨none, false, true, false⟩).calls
      = [⟨[], true, false⟩, ⟨[], false, false⟩] ∧
    [[("@odata.id".data, Value.prim 9)]] ≠ ([] : List Dict) ∧
    (run [] appRetryOdata "Thermal".data [] ⟨none, false, true, false⟩).code
      = Except.error (GetError.noContents genericNoContentsMsg) ∧
    (run [] appRetryOdata "Thermal".data [] ⟨none, false, true, false⟩).code
      ≠ Except.ok returnCodeSuccess := by
  refine ⟨by decide, List.cons_ne_nil _ _, rfl, ?_⟩
  intro h
  rw [show (run [] appRetryOdata "Thermal".data [] ⟨none, false, true, false⟩).code
      = Except.error (GetError.noContents genericNoContentsMsg) from rfl] at h
  exact Except.noConfusion h

/-- C7 (amended): when the first `getprops` call (carrying the
read-only exclusion and the filter-resolved instance restriction)
raises the recoverable `EmptyRaiseForEAFP`, exactly one retry is made,
with the same property arguments and with neither the read-only
exclusion nor the instance restriction; when the retry yields content
that survives post-processing and whose collapsed first mapping
survives the reserved-key filter, `run` returns `ReturnCodes.SUCCESS`. -/
theorem C7_retry_and_success (hard : List Str) (app : App) (sel0 : Str)
    (args : List Str) (opts : RunOptions) (fv : Option (Str × Str))
    (contents : List Dict) (noc : List Str) (c : Dict) (rest : List Dict)
    (hfv : runParseFilter opts.filter = Except.ok fv)
    (h1 : app.getprops (rewriteArgs (normalizeSelector sel0) args) opts.noreadonly
        (instancesOf app (normalizeSelector sel0) fv) = PropsResult.emptyRaise)
    (h2 : app.getprops (rewriteArgs (normalizeSelector sel0) args) false none
        = PropsResult.ok contents noc)
    (h3 : postProcess (normalizeSelector sel0) contents = Except.ok (c :: rest))
    (h4 : filterReserved hard c ≠ []) :
    (run hard app sel0 args opts).calls
      = [⟨rewriteArgs (normalizeSelector sel0) args, opts.noreadonly,
          (instancesOf app (normalizeSelector sel0) fv).isSome⟩,
         ⟨rewriteArgs (normalizeSelector sel0) args, false, false⟩] ∧
    (run hard app sel0 args opts).code = Except.ok returnCodeSuccess := by
  have hw := @worker_retry hard app sel0
    ⟨args, ⟨opts.json, opts.logout, opts.noreadonly⟩, opts.noreadonly, fv, false, true⟩
    contents noc h1 h2
  obtain ⟨o, ho⟩ := @finishWorker_uselist_success hard (normalizeSelector sel0)
    ⟨args, ⟨opts.json, opts.logout, opts.noreadonly⟩, opts.noreadonly, fv, false, true⟩
    noc contents c rest rfl h3 h4
  unfold run
  rw [hfv]
  dsimp only
  rw [hw]
  dsimp only
  rw [ho]
  exact ⟨rfl, rfl⟩

/-- Witness for C7: `appRetry` raises on the first restricted call and
yields content on the unrestricted retry; `run` succeeds with exactly
the two recorded calls. -/
theorem C7_witness :
    (run [] appRetry "Thermal".data [] ⟨some "Name=x".data, false, true, false⟩).calls
      = [⟨rewriteArgs (normalizeSelector "Thermal".data) [], true,
          (instancesOf appRetry (normalizeSelector "Thermal".data)
            (some ("Name".data, "x".data))).isSome⟩,
         ⟨rewriteArgs (normalizeSelector "Thermal".data) [], false, false⟩] ∧
    (run [] appRetry "Thermal".data [] ⟨some "Name=x".data, false, true, false⟩).code
      = Except.ok returnCodeSuccess :=
  C7_retry_and_success [] appRetry "Thermal".data []
    ⟨some "Name=x".data, false, true, false⟩ (some ("Name".data, "x".data))
    [[("A".data, Value.prim 1)]] [] [("A".data, Value.prim 1)] []
    rfl rfl rfl rfl
    (by
      intro h
      rw [show filterReserved [] [("A".data, Value.prim 1)]
          = [("A".data, Value.prim 1)] from rfl] at h
      exact List.cons_ne_nil _ _ h)

/-- C10: in effective list mode (`uselist` requested and the read-only
exclusion not requested), when retrieval returns an empty instance list
without raising the sentinel, `getworkerfunction` fails with the
out-of-bounds `contents[0]` access, not with the documented
`NoContentsFoundForOperationError`. -/
theorem C10_empty_list_crash (hard : List Str) (app : App) (sel0 : Str)
    (inp : WorkerIn) (noc : List Str)
    (huse : inp.uselist = true) (hro : inp.readonly = false)
    (hok : app.getprops (rewriteArgs (normalizeSelector sel0) inp.args) inp.readonly
        (instancesOf app (normalizeSelector sel0) inp.filtervals)
        = PropsResult.ok [] noc) :
    (getworkerfunction hard app sel0 inp).outcome = Except.error GetError.indexError ∧
    ∀ m, (getworkerfunction hard app sel0 inp).outcome
      ≠ Except.error (GetError.noContents m) := by
  have hw : (getworkerfunction hard app sel0 inp).outcome
      = finishWorker hard (normalizeSelector sel0) inp [] noc
          (if inp.readonly then false else inp.uselist) := by
    unfold getworkerfunction
    rw [hok]
  rw [hro, huse] at hw
  simp only [Bool.false_eq_true, if_false] at hw
  have hfw : finishWorker hard (normalizeSelector sel0) inp [] noc true
      = Except.error GetError.indexError := rfl
  rw [hw, hfw]
  refine ⟨rfl, ?_⟩
  intro m hm
  injection hm with h2
  exact GetError.noConfusion h2

/-- Witness for C10: a collaborator returning an empty list under list
mode produces the `IndexError`. -/
theorem C10_witness :
    (getworkerfunction [] appEmpty "Thermal".data (plainIn [])).outcome
      = Except.error GetError.indexError :=
  (C10_empty_list_crash [] appEmpty "Thermal".data (plainIn []) [] rfl rfl rfl).1

end GetCmd
